import Mathlib

/-!
Verification development for the transcription-and-generation orchestration
core of the video-to-guide pipeline.  The definitions below are shallow
embeddings of the Python source: the overlap mergers and audio-chunk
planners of the two remote providers, the chunk-transcription loop, the
retry loop of guide generation, the availability probe of the local server
provider, and the transcriber persistence control flow.  Theorems settle
the frozen claims about this code.
-/

deriving instance DecidableEq for Except

namespace VGP

/-! ### Python string primitives

In Python, str.split() splits on runs of whitespace and drops empty pieces;
str.strip() removes leading and trailing whitespace; " ".join joins with a
single space.  These are modelled character-exactly.
-/

/-- Whitespace characters recognised by the Python split and strip methods. -/
def pyIsSpace (c : Char) : Bool :=
  c == ' ' || c == '\t' || c == '\n' || c == '\r' || c == '\x0b' || c == '\x0c'

/-- Accumulating splitter: first argument is the remaining input, second the
current in-progress word (reversed). -/
def splitAux : List Char → List Char → List (List Char)
  | [], [] => []
  | [], acc => [acc.reverse]
  | c :: cs, acc =>
    if pyIsSpace c then
      match acc with
      | [] => splitAux cs []
      | _ => acc.reverse :: splitAux cs []
    else splitAux cs (c :: acc)

/-- Python str.split() with no arguments. -/
def pySplit (s : String) : List String :=
  (splitAux s.data []).map fun l => ⟨l⟩

/-- Python str.strip() with no arguments. -/
def pyStrip (s : String) : String :=
  ⟨((s.data.dropWhile pyIsSpace).reverse.dropWhile pyIsSpace).reverse⟩

/-- Python " ".join(ws). -/
def joinSp (ws : List String) : String := String.intercalate " " ws

/-- Python s[:n] for a nonnegative slice bound. -/
def strTake (s : String) (n : Nat) : String := ⟨s.data.take n⟩

/-- Python s[-n:] for a positive n: the last n characters (the whole string
when it is shorter than n). -/
def strTakeLast (s : String) (n : Nat) : String := ⟨s.data.drop (s.data.length - n)⟩

/-- Python xs[-n:] on a list: the last n elements (whole list when shorter). -/
def lastN (xs : List String) (n : Nat) : List String := xs.drop (xs.length - n)

/-- Truthiness of t.strip() in Python: false exactly when the stripped string
is nonempty. -/
def isBlank (s : String) : Bool := pyStrip s == ""

/-! ### Chunk results and the overlap mergers -/

/-- One per-chunk transcription outcome as held in the transcriptions
lists of the providers: its text and the failed flag. -/
structure ChunkResult where
  text : String
  failed : Bool
deriving DecidableEq

/-- The valid-transcription filter both mergers apply first: drop entries
that are marked failed or whose stripped text is empty
(Python: not failed and nonempty stripped text). -/
def validOf (chunks : List ChunkResult) : List ChunkResult :=
  chunks.filter fun c => !c.failed && !isBlank c.text

/-- Downward overlap search shared by the word-level mergers: the greatest
L at most the given bound with lastN mw L = cw.take L, and 0 when none
matches (Python: for overlap_len in range(max_overlap, 0, -1)). -/
def bestOverlap (mw cw : List String) : Nat → Nat
  | 0 => 0
  | l + 1 => if lastN mw (l + 1) = cw.take (l + 1) then l + 1 else bestOverlap mw cw l

/-- One iteration of the HuggingFace merge loop
(huggingface.py, _merge_overlapping_transcriptions): tokenize the whole
running text and the whole current text, search overlaps up to
min(50, len(merged_words), len(current_words)), and on a match append the
words of the current chunk after the overlap, else append the full text. -/
def hfMergeStep (merged current : String) : String :=
  let mw := pySplit merged
  let cw := pySplit current
  let best := bestOverlap mw cw (min 50 (min mw.length cw.length))
  if 0 < best then merged ++ " " ++ joinSp (cw.drop best) else merged ++ " " ++ current

/-- The HuggingFace merge loop over the texts after the first valid one. -/
def hfMergeLoop (merged : String) : List String → String
  | [] => merged
  | t :: ts => hfMergeLoop (hfMergeStep merged t) ts

/-- HuggingFaceProvider._merge_overlapping_transcriptions. -/
def hfMergeResults (chunks : List ChunkResult) : String :=
  match chunks with
  | [] => ""
  | _ :: _ =>
    match validOf chunks with
    | [] => "[All chunks failed transcription]"
    | [c] => c.text
    | c :: c2 :: rest => pyStrip (hfMergeLoop c.text ((c2 :: rest).map (·.text)))

/-- Downward overlap search of the OpenRouter merger, reporting whether any
length matched (Python sets overlap_found on the first hit). -/
def orFindOverlap (me cs : List String) : Nat → Option Nat
  | 0 => none
  | l + 1 => if lastN me (l + 1) = cs.take (l + 1) then some (l + 1) else orFindOverlap me cs l

/-- One iteration of the OpenRouter merge loop
(openrouter.py, _merge_overlapping_transcriptions): skipped when the current
text strips to empty; the overlap search runs only when both sides exceed 20
characters and tokenizes the last 50 characters of the merged text and the
first 50 characters of the current text; on a match only the remainder of
that 50-character leading window is appended. -/
def orMergeStep (merged current : String) : String :=
  if isBlank current then merged
  else
    let me := pySplit (pyStrip (strTakeLast merged 50))
    let cs := pySplit (pyStrip (strTake current 50))
    let ov := if 20 < merged.length ∧ 20 < current.length then
        orFindOverlap me cs (min me.length cs.length)
      else none
    match ov with
    | some l =>
      let remaining := joinSp (cs.drop l)
      if isBlank remaining then merged else merged ++ " " ++ remaining
    | none => merged ++ " " ++ current

/-- The OpenRouter merge loop over the texts after the first valid one. -/
def orMergeLoop (merged : String) : List String → String
  | [] => merged
  | t :: ts => orMergeLoop (orMergeStep merged t) ts

/-- OpenRouterProvider._merge_overlapping_transcriptions. -/
def orMergeResults (chunks : List ChunkResult) : String :=
  match chunks with
  | [] => ""
  | _ :: _ =>
    match validOf chunks with
    | [] => "[All chunks failed transcription]"
    | [c] => c.text
    | c :: c2 :: rest => pyStrip (orMergeLoop c.text ((c2 :: rest).map (·.text)))

/-! ### The reference merge algorithm, for comparison

The next two definitions follow the words of the spec (section 4.4, steps
1-4) rather than either implementation: tokenize the trailing window of the
merged text (last N words, N = min(50, word count)) and the leading window
of the current text (first N words), search overlap lengths from the window
sizes down to 1, and on a match append the words of the current chunk after
the overlap position, else the full current text, separated by a single
space. -/
def refMergeStep (merged current : String) : String :=
  let mw := pySplit merged
  let cw := pySplit current
  let trailing := lastN mw (min 50 mw.length)
  let leading := cw.take (min 50 cw.length)
  let best := bestOverlap trailing leading (min trailing.length leading.length)
  if 0 < best then merged ++ " " ++ joinSp (cw.drop best) else merged ++ " " ++ current

/-- The reference merge loop over the texts after the first one. -/
def refMergeLoop (merged : String) : List String → String
  | [] => merged
  | t :: ts => refMergeLoop (refMergeStep merged t) ts

/-! ### The chunk transcription executors

Both providers loop over the chunk files, try the single-file transcription,
and on an exception append an entry with empty text and failed set, then
continue with the next chunk.  The per-chunk call is abstracted as an
oracle list of outcomes (a returned text or a raised error). -/

/-- The per-chunk loop of _transcribe_with_chunking: a successful call is
recorded with its text, a raised exception as an empty-text failed entry. -/
def runChunks (outcomes : List (Except String String)) : List ChunkResult :=
  outcomes.map fun o =>
    match o with
    | .ok t => { text := t, failed := false }
    | .error _ => { text := "", failed := true }

/-! ### The audio chunk planners

Both _split_audio_file implementations probe the duration, derive a chunk
duration from the file size, and lay out windows at start = i * step.
Durations are rationals (Python floats carry exact small decimals here);
the Python int() conversion truncates toward zero. -/

/-- Python int() applied to a rational: truncation toward zero. -/
def pyInt (q : ℚ) : ℤ := if q < 0 then ⌈q⌉ else ⌊q⌋

/-- One planned chunk window. -/
structure AudioChunkSpec where
  startSeconds : ℚ
  durationSeconds : ℚ
deriving DecidableEq

/-- HuggingFace chunk duration: min(chunk_duration_seconds,
int(target_chunk_size_mb / estimated_mb_per_second * 0.6)), with
estimated_mb_per_second = fileSizeMB / total. -/
def hfMaxdur (total fileSizeMB : ℚ) (chunkDur : ℤ) (target : ℚ) : ℤ :=
  min chunkDur (pyInt (target / (fileSizeMB / total) * (3 / 5)))

/-- HuggingFace chunk step: chunk duration minus the configured overlap. -/
def hfStep (total fileSizeMB : ℚ) (chunkDur overlap : ℤ) (target : ℚ) : ℤ :=
  hfMaxdur total fileSizeMB chunkDur target - overlap

/-- The HuggingFace planning loop: for i in range(chunk_count), window start
i * step, duration min(maxdur, total - start), stopping at the first
nonpositive duration. -/
def hfLoop (total maxdur step : ℚ) : Nat → Nat → List AudioChunkSpec
  | 0, _ => []
  | fuel + 1, i =>
    let start : ℚ := (i : ℚ) * step
    let actual := min maxdur (total - start)
    if actual ≤ 0 then []
    else { startSeconds := start, durationSeconds := actual } :: hfLoop total maxdur step fuel (i + 1)

/-- The window list computed by HuggingFaceProvider._split_audio_file:
chunk_count = int(total / step) + 1 iterations of the loop. -/
def hfPlan (total fileSizeMB : ℚ) (chunkDur overlap : ℤ) (target : ℚ) : List AudioChunkSpec :=
  hfLoop total (hfMaxdur total fileSizeMB chunkDur target : ℚ)
    (hfStep total fileSizeMB chunkDur overlap target : ℚ)
    (pyInt (total / (hfStep total fileSizeMB chunkDur overlap target : ℚ)) + 1).toNat 0

/-- HuggingFaceProvider._split_audio_file as a fallible computation: the
division total / step raises ZeroDivisionError when step = 0, otherwise the
window list is produced (the ffmpeg invocations are assumed to succeed). -/
def hfSplit (total fileSizeMB : ℚ) (chunkDur overlap : ℤ) (target : ℚ) :
    Except String (List AudioChunkSpec) :=
  if hfStep total fileSizeMB chunkDur overlap target = 0 then .error "ZeroDivisionError"
  else .ok (hfPlan total fileSizeMB chunkDur overlap target)

/-- OpenRouter chunk duration: the same size-derived bound, additionally
clamped below by 30 seconds (max(30, ...)). -/
def orMaxdur (total fileSizeMB : ℚ) (chunkDur : ℤ) (target : ℚ) : ℤ :=
  max 30 (min chunkDur (pyInt (target / (fileSizeMB / total) * (3 / 5))))

/-- OpenRouter chunk step: chunk duration minus the configured overlap. -/
def orStep (total fileSizeMB : ℚ) (chunkDur overlap : ℤ) (target : ℚ) : ℤ :=
  orMaxdur total fileSizeMB chunkDur target - overlap

/-- The OpenRouter planning loop: additionally breaks when the start reaches
the total duration and when the remaining duration is below 15 seconds
(skip very short chunks). -/
def orLoop (total maxdur step : ℚ) : Nat → Nat → List AudioChunkSpec
  | 0, _ => []
  | fuel + 1, i =>
    let start : ℚ := (i : ℚ) * step
    if total ≤ start then []
    else
      let actual := min maxdur (total - start)
      if actual < 15 then []
      else { startSeconds := start, durationSeconds := actual } :: orLoop total maxdur step fuel (i + 1)

/-- The window list computed by OpenRouterProvider._split_audio_file. -/
def orPlan (total fileSizeMB : ℚ) (chunkDur overlap : ℤ) (target : ℚ) : List AudioChunkSpec :=
  orLoop total (orMaxdur total fileSizeMB chunkDur target : ℚ)
    (orStep total fileSizeMB chunkDur overlap target : ℚ)
    (pyInt (total / (orStep total fileSizeMB chunkDur overlap target : ℚ)) + 1).toNat 0

/-- OpenRouterProvider._split_audio_file as a fallible computation. -/
def orSplit (total fileSizeMB : ℚ) (chunkDur overlap : ℤ) (target : ℚ) :
    Except String (List AudioChunkSpec) :=
  if orStep total fileSizeMB chunkDur overlap target = 0 then .error "ZeroDivisionError"
  else .ok (orPlan total fileSizeMB chunkDur overlap target)

/-- A window list covers the half-open interval from 0 to total: every time
point in it lies inside some window. -/
def coversInterval (plan : List AudioChunkSpec) (total : ℚ) : Prop :=
  ∀ t : ℚ, 0 ≤ t → t < total →
    ∃ w ∈ plan, w.startSeconds ≤ t ∧ t < w.startSeconds + w.durationSeconds

/-! ### The guide-generation retry loop

OpenRouterProvider.generate_guide attempts the request up to max_retries
times; a requests-level (transport) exception on a non-final attempt sleeps
2 to the power of the attempt index and retries; any other failure (a
semantic rejection such as missing choices or malformed JSON) propagates
immediately.  The attempt outcomes are an oracle; the embedding records the
result, the number of attempts made and the sleeps performed. -/

/-- What one attempt of the request can do. -/
inductive AttemptOutcome where
  | success (s : String)
  | semanticFail (e : String)
  | transportFail (e : String)
deriving DecidableEq

/-- The error a caller of generate_guide can observe. -/
inductive GuideError where
  | semantic (e : String)
  | transport (e : String)
deriving DecidableEq

/-- Observable trace of one generate_guide call: the outcome (none when the
retry loop body never ran, i.e. max_retries = 0), how many attempts were
made, and the backoff sleeps in order. -/
structure RetryTrace where
  result : Option (Except GuideError String)
  calls : Nat
  sleeps : List Nat

/-- The retry loop of generate_guide: first argument is the remaining
attempt budget, second the current attempt index. -/
def retryGo (attempts : Nat → AttemptOutcome) : Nat → Nat → RetryTrace
  | 0, _ => { result := none, calls := 0, sleeps := [] }
  | n + 1, k =>
    match attempts k with
    | .success s => { result := some (.ok s), calls := 1, sleeps := [] }
    | .semanticFail e => { result := some (.error (.semantic e)), calls := 1, sleeps := [] }
    | .transportFail e =>
      match n with
      | 0 => { result := some (.error (.transport e)), calls := 1, sleeps := [] }
      | m + 1 =>
        let r := retryGo attempts (m + 1) (k + 1)
        { result := r.result, calls := r.calls + 1, sleeps := 2 ^ k :: r.sleeps }

/-- The retry behaviour of OpenRouterProvider.generate_guide for a given
max_retries budget. -/
def generateGuideRun (attempts : Nat → AttemptOutcome) (maxRetries : Nat) : RetryTrace :=
  retryGo attempts maxRetries 0

/-- The default attempt bound set in APIProvider when the configuration
leaves max_retries unset. -/
def defaultMaxRetries : Nat := 3

/-! ### The local-server availability probe

OllamaProvider.is_available performs a GET on the tags endpoint inside a
bare try/except: the status comparison when the request returns, false on
any raised exception.  The request is an oracle (status code or error). -/

/-- The try-block body: propagates the exception of the request, otherwise
compares the status code with 200. -/
def ollamaProbeBody (resp : Except String Nat) : Except String Bool :=
  match resp with
  | .ok status => .ok (status == 200)
  | .error e => .error e

/-- OllamaProvider.is_available: the bare except turns any exception into
false. -/
def ollamaIsAvailable (resp : Except String Nat) : Bool :=
  match ollamaProbeBody resp with
  | .ok b => b
  | .error _ => false

/-! ### The persistence control flow of the transcriber

Transcriber.transcribe_audio: missing audio file returns None at once; in
the API modes the provider result is enhanced (keeping its text, dropping
any failed flag) and saved; a provider exception falls back to local
transcription when configured; local transcription saves its own result.
Provider and local outcomes, and save success, are oracles; the returned
pair collects the result and the transcript texts written to disk. -/

/-- What the transcribe_audio method of an API provider returns (the text
and failed fields of the dict). -/
structure ApiResult where
  text : String
  failed : Bool
deriving DecidableEq

/-- HuggingFaceProvider.transcribe_audio: the inner transcription either
returns a result dict or raises; the catch-all turns a raised exception
into a placeholder result with failed set. -/
def hfTranscribeAudio (inner : Except String ApiResult) : ApiResult :=
  match inner with
  | .ok r => r
  | .error e => { text := "[Transcription failed: " ++ e ++ "]", failed := true }

/-- The local branch (_transcribe_local): None when the model is missing or
transcription raised, otherwise the text is saved and returned when the
save succeeds. -/
def localStage (localResult : Option String) (localSaveOk : Bool) (writes : List String) :
    Option String × List String :=
  match localResult with
  | none => (none, writes)
  | some t => if localSaveOk then (some t, writes ++ [t]) else (none, writes)

/-- Transcriber.transcribe_audio.  Arguments: whether the audio path exists,
whether an API provider is configured and selected, the outcome of the
outcome, whether the API-result save succeeds, the fallback_to_local flag,
the local outcome and its save success.  Saves are modelled as atomic. -/
def transcriberRun (pathExists useApi : Bool) (apiCall : Except String ApiResult)
    (saveOk fallbackToLocal : Bool) (localResult : Option String) (localSaveOk : Bool) :
    Option String × List String :=
  if pathExists then
    if useApi then
      match apiCall with
      | .ok r =>
        if saveOk then (some r.text, [r.text])
        else localStage localResult localSaveOk []
      | .error _ =>
        if fallbackToLocal then localStage localResult localSaveOk []
        else (none, [])
    else localStage localResult localSaveOk []
  else (none, [])

/-! ## Helper lemmas for the merger claims -/

/-- Taking the last k elements of the last n elements, k at most n, is
taking the last k elements. -/
lemma lastN_lastN (xs : List String) (n k : Nat) (h : k ≤ n) :
    lastN (lastN xs n) k = lastN xs k := by
  simp only [lastN, List.drop_drop, List.length_drop]
  congr 1
  omega

/-- Taking a shorter initial segment of an initial segment. -/
lemma take_take_le (cw : List String) (n k : Nat) (h : k ≤ n) :
    (cw.take n).take k = cw.take k := by
  rw [List.take_take]
  congr 1
  omega

/-- The overlap search over the 50-word boundary windows agrees with the
search over the full word lists, for bounds inside both windows. -/
lemma bestOverlap_window (mw cw : List String) :
    ∀ b, b ≤ min 50 mw.length → b ≤ min 50 cw.length →
      bestOverlap (lastN mw (min 50 mw.length)) (cw.take (min 50 cw.length)) b
        = bestOverlap mw cw b := by
  intro b
  induction b with
  | zero => intro _ _; rfl
  | succ l ih =>
    intro h1 h2
    rw [bestOverlap, bestOverlap, lastN_lastN mw _ (l + 1) (by omega),
      take_take_le cw _ (l + 1) (by omega)]
    by_cases hc : lastN mw (l + 1) = cw.take (l + 1)
    · simp [hc]
    · simp only [hc, if_false]
      exact ih (by omega) (by omega)

/-- One HuggingFace merge iteration coincides with one reference-algorithm
iteration on every pair of texts. -/
lemma hf_step_eq_ref (m c : String) : hfMergeStep m c = refMergeStep m c := by
  have hlen : min (lastN (pySplit m) (min 50 (pySplit m).length)).length
      (((pySplit c).take (min 50 (pySplit c).length)).length)
      = min 50 (min (pySplit m).length (pySplit c).length) := by
    simp [lastN, List.length_take]
    omega
  have key : bestOverlap (lastN (pySplit m) (min 50 (pySplit m).length))
      ((pySplit c).take (min 50 (pySplit c).length))
      (min (lastN (pySplit m) (min 50 (pySplit m).length)).length
        (((pySplit c).take (min 50 (pySplit c).length)).length))
      = bestOverlap (pySplit m) (pySplit c)
        (min 50 (min (pySplit m).length (pySplit c).length)) := by
    rw [hlen]
    exact bestOverlap_window _ _ _ (by omega) (by omega)
  simp only [hfMergeStep, refMergeStep]
  rw [key]

/-! ## C1 -/

/-- C1 (amended): the HuggingFace overlap merger computes exactly the
reference algorithm — for every running merged text and every chronological
sequence of subsequent chunk texts, its merge loop equals the loop of the
reference algorithm, whose windows are the last and first N words
(N = min(50, word count)) and which appends all words of the current chunk
after the matched overlap position. -/
theorem c1_hf_merger_matches_reference (first : String) (rest : List String) :
    hfMergeLoop first rest = refMergeLoop first rest := by
  induction rest generalizing first with
  | nil => rfl
  | cons t ts ih =>
    rw [hfMergeLoop, refMergeLoop, hf_step_eq_ref]
    exact ih _

/-- C1 (counterexample): the OpenRouter merger does not compute the
reference algorithm.  On the chunk texts of the pair below the reference
algorithm detects the one-word overlap and merges without duplication,
while the OpenRouter merger skips the overlap search (both texts are at
most 20 characters long) and duplicates the shared word. -/
theorem c1_openrouter_merger_deviates :
    orMergeLoop "a b" ["b c"] ≠ refMergeLoop "a b" ["b c"] := by
  decide

/-! ## C9 -/

/-- A string whose stripped form is nonempty is not blank. -/
lemma isBlank_false_of_ne (t : String) (h : pyStrip t ≠ "") : isBlank t = false := by
  rw [isBlank]
  exact beq_eq_false_iff_ne.mpr h

/-- C9 (amended): merging a one-element sequence whose element is successful
and has a nonblank text returns that text unchanged, in both mergers.  The
nonblank hypothesis is forced by the counterexample below. -/
theorem c9_single_success_unchanged (t : String) (h : pyStrip t ≠ "") :
    hfMergeResults [{ text := t, failed := false }] = t ∧
    orMergeResults [{ text := t, failed := false }] = t := by
  have hb : isBlank t = false := isBlank_false_of_ne t h
  constructor <;> simp [hfMergeResults, orMergeResults, validOf, List.filter, hb]

/-- C9 (witness): the amended claim at a concrete one-element sequence. -/
theorem c9_witness :
    hfMergeResults [{ text := "hello", failed := false }] = "hello" ∧
    orMergeResults [{ text := "hello", failed := false }] = "hello" :=
  c9_single_success_unchanged "hello" (by decide)

/-- C9 (counterexample): a successful chunk whose text is a single space is
filtered out by the blank check, so the merger returns the all-failed
sentinel instead of the text unchanged. -/
theorem c9_blank_counterexample :
    hfMergeResults [{ text := " ", failed := false }] ≠ " " := by decide

/-! ## C4 -/

/-- A list of entirely failed chunks has no valid transcriptions. -/
lemma validOf_all_failed (chunks : List ChunkResult)
    (h : ∀ c ∈ chunks, c.failed = true) : validOf chunks = [] := by
  induction chunks with
  | nil => rfl
  | cons c cs ih =>
    have hc : c.failed = true := h c (by simp)
    simp only [validOf, List.filter_cons, hc, Bool.not_true, Bool.false_and, if_neg] at ih ⊢
    simp only [Bool.false_eq_true, if_false]
    exact ih fun d hd => h d (by simp [hd])

/-- A nonempty chunk list with no valid transcription merges to the
sentinel string in the HuggingFace merger. -/
lemma hfMergeResults_of_valid_nil (chunks : List ChunkResult) (hne : chunks ≠ [])
    (hv : validOf chunks = []) :
    hfMergeResults chunks = "[All chunks failed transcription]" := by
  obtain ⟨c, cs, rfl⟩ := List.exists_cons_of_ne_nil hne
  simp [hfMergeResults, hv]

/-- A nonempty chunk list with no valid transcription merges to the
sentinel string in the OpenRouter merger. -/
lemma orMergeResults_of_valid_nil (chunks : List ChunkResult) (hne : chunks ≠ [])
    (hv : validOf chunks = []) :
    orMergeResults chunks = "[All chunks failed transcription]" := by
  obtain ⟨c, cs, rfl⟩ := List.exists_cons_of_ne_nil hne
  simp [orMergeResults, hv]

/-- C4 (amended): when every chunk of a nonempty chunked run raises, no
exception is raised by the merge — both mergers return the sentinel string
as the merged transcript text, and the run returns it as an ordinary string
result.  No AllChunksFailedError exists in the code. -/
theorem c4_all_failed_sentinel (outcomes : List (Except String String))
    (hne : outcomes ≠ [])
    (hall : ∀ o ∈ outcomes, ∃ e, o = Except.error e) :
    hfMergeResults (runChunks outcomes) = "[All chunks failed transcription]" ∧
    orMergeResults (runChunks outcomes) = "[All chunks failed transcription]" := by
  have hfail : ∀ c ∈ runChunks outcomes, c.failed = true := by
    intro c hc
    rw [runChunks] at hc
    obtain ⟨o, ho, rfl⟩ := List.mem_map.mp hc
    obtain ⟨e, rfl⟩ := hall o ho
    rfl
  have hne' : runChunks outcomes ≠ [] := by
    rw [runChunks]
    simpa using hne
  exact ⟨hfMergeResults_of_valid_nil _ hne' (validOf_all_failed _ hfail),
    orMergeResults_of_valid_nil _ hne' (validOf_all_failed _ hfail)⟩

/-- C4 (witness): the amended claim at a concrete two-chunk all-failed run. -/
theorem c4_witness :
    hfMergeResults (runChunks [Except.error "x", Except.error "y"])
      = "[All chunks failed transcription]" ∧
    orMergeResults (runChunks [Except.error "x", Except.error "y"])
      = "[All chunks failed transcription]" :=
  c4_all_failed_sentinel [Except.error "x", Except.error "y"] (by decide)
    (by intro o ho; simp at ho; rcases ho with rfl | rfl; exacts [⟨"x", rfl⟩, ⟨"y", rfl⟩])

/-- C4 (counterexample): a chunked run in which the only chunk fails still
produces a merged string — the sentinel text — rather than an error, so the
caller receives a string result, contrary to the claim. -/
theorem c4_string_not_error :
    hfMergeResults (runChunks [Except.error "boom"])
      = "[All chunks failed transcription]" := by
  decide

/-! ## C6 -/

/-- Erasing a list entry that a filter rejects does not change the filter
result. -/
lemma filter_eraseIdx_of_false {α : Type} (p : α → Bool) :
    ∀ (l : List α) (i : Nat) (a : α), l.get? i = some a → p a = false →
      (l.eraseIdx i).filter p = l.filter p := by
  intro l
  induction l with
  | nil => intro i a h; simp at h
  | cons x xs ih =>
    intro i a h hp
    cases i with
    | zero =>
      simp only [List.get?] at h
      injection h with h
      subst h
      simp [List.eraseIdx, List.filter_cons, hp]
    | succ n =>
      simp only [List.get?] at h
      simp only [List.eraseIdx, List.filter_cons]
      rw [ih n a h hp]

/-- C6: when the chunk at index i raises, the executor records it as an
empty-text failed entry, still attempts and records every other chunk
(the result list is index-aligned with the outcome list), and the failed
entry contributes nothing to the merge input: deleting it leaves the
valid-transcription list of the mergers unchanged. -/
theorem c6_executor_tolerates_failure (outcomes : List (Except String String)) (i : Nat)
    (e : String) (h : outcomes.get? i = some (.error e)) :
    (runChunks outcomes).length = outcomes.length ∧
    (runChunks outcomes).get? i = some { text := "", failed := true } ∧
    (∀ j t, outcomes.get? j = some (.ok t) →
      (runChunks outcomes).get? j = some { text := t, failed := false }) ∧
    validOf ((runChunks outcomes).eraseIdx i) = validOf (runChunks outcomes) := by
  refine ⟨by simp [runChunks], ?_, ?_, ?_⟩
  · rw [runChunks, List.get?_map, h]; rfl
  · intro j t hj; rw [runChunks, List.get?_map, hj]; rfl
  · rw [validOf, validOf]
    exact filter_eraseIdx_of_false _ _ i { text := "", failed := true }
      (by rw [runChunks, List.get?_map, h]; rfl) rfl

/-- C6 (witness): the theorem at a concrete three-chunk run whose middle
chunk raises. -/
theorem c6_witness :
    (runChunks [Except.ok "good morning", Except.error "boom",
      Except.ok "morning sun"]).length = 3 ∧
    (runChunks [Except.ok "good morning", Except.error "boom",
      Except.ok "morning sun"]).get? 1 = some { text := "", failed := true } ∧
    (∀ j t, ([Except.ok "good morning", Except.error "boom",
        Except.ok "morning sun"] : List (Except String String)).get? j = some (.ok t) →
      (runChunks [Except.ok "good morning", Except.error "boom",
        Except.ok "morning sun"]).get? j = some { text := t, failed := false }) ∧
    validOf ((runChunks [Except.ok "good morning", Except.error "boom",
      Except.ok "morning sun"]).eraseIdx 1)
      = validOf (runChunks [Except.ok "good morning", Except.error "boom",
        Except.ok "morning sun"]) :=
  c6_executor_tolerates_failure
    [Except.ok "good morning", Except.error "boom", Except.ok "morning sun"] 1 "boom" rfl

/-! ## C7: unfolding equations and invariants of the retry loop -/

/-- Retry loop with no budget: no call is made. -/
lemma retryGo_zero (a : Nat → AttemptOutcome) (k : Nat) :
    retryGo a 0 k = { result := none, calls := 0, sleeps := [] } := rfl

/-- Retry loop on a successful attempt: one call, immediate return. -/
lemma retryGo_succ_success (a : Nat → AttemptOutcome) (n k : Nat) (s : String)
    (h : a k = .success s) :
    retryGo a (n + 1) k = { result := some (.ok s), calls := 1, sleeps := [] } := by
  rw [retryGo, h]

/-- Retry loop on a semantic failure: one call, the error propagates at
once, regardless of remaining budget. -/
lemma retryGo_succ_semantic (a : Nat → AttemptOutcome) (n k : Nat) (e : String)
    (h : a k = .semanticFail e) :
    retryGo a (n + 1) k
      = { result := some (.error (.semantic e)), calls := 1, sleeps := [] } := by
  rw [retryGo, h]

/-- Retry loop on a transport failure with no budget left: the error is
re-raised. -/
lemma retryGo_one_transport (a : Nat → AttemptOutcome) (k : Nat) (e : String)
    (h : a k = .transportFail e) :
    retryGo a 1 k = { result := some (.error (.transport e)), calls := 1, sleeps := [] } := by
  rw [retryGo, h]

/-- Retry loop on a transport failure with budget left: sleep 2 ^ k and
retry. -/
lemma retryGo_succ2_transport (a : Nat → AttemptOutcome) (m k : Nat) (e : String)
    (h : a k = .transportFail e) :
    retryGo a (m + 2) k
      = { result := (retryGo a (m + 1) (k + 1)).result,
          calls := (retryGo a (m + 1) (k + 1)).calls + 1,
          sleeps := 2 ^ k :: (retryGo a (m + 1) (k + 1)).sleeps } := by
  rw [retryGo, h]

/-- The number of attempts never exceeds the budget. -/
lemma retryGo_calls_le (a : Nat → AttemptOutcome) : ∀ n k, (retryGo a n k).calls ≤ n := by
  intro n
  induction n with
  | zero => intro k; simp [retryGo_zero]
  | succ m ih =>
    intro k
    cases ha : a k with
    | success s => simp [retryGo_succ_success a m k s ha]
    | semanticFail e => simp [retryGo_succ_semantic a m k e ha]
    | transportFail e =>
      cases m with
      | zero => simp [retryGo_one_transport a k e ha]
      | succ m' =>
        rw [retryGo_succ2_transport a m' k e ha]
        have := ih (k + 1)
        simp only
        omega

/-- With positive budget at least one attempt is made. -/
lemma retryGo_calls_pos (a : Nat → AttemptOutcome) :
    ∀ n k, 0 < n → 0 < (retryGo a n k).calls := by
  intro n k hn
  obtain ⟨m, rfl⟩ : ∃ m, n = m + 1 := ⟨n - 1, by omega⟩
  cases ha : a k with
  | success s => simp [retryGo_succ_success a m k s ha]
  | semanticFail e => simp [retryGo_succ_semantic a m k e ha]
  | transportFail e =>
    cases m with
    | zero => simp [retryGo_one_transport a k e ha]
    | succ m' => simp [retryGo_succ2_transport a m' k e ha]

/-- Every attempt that was followed by another attempt failed at the
transport level. -/
lemma retryGo_nonfinal_transport (a : Nat → AttemptOutcome) :
    ∀ n k j, j + 1 < (retryGo a n k).calls → ∃ e, a (k + j) = .transportFail e := by
  intro n
  induction n with
  | zero => intro k j hj; simp [retryGo_zero] at hj
  | succ m ih =>
    intro k j hj
    cases ha : a k with
    | success s => simp [retryGo_succ_success a m k s ha] at hj
    | semanticFail e => simp [retryGo_succ_semantic a m k e ha] at hj
    | transportFail e =>
      cases m with
      | zero => simp [retryGo_one_transport a k e ha] at hj
      | succ m' =>
        rw [retryGo_succ2_transport a m' k e ha] at hj
        simp only at hj
        cases j with
        | zero => exact ⟨e, by simpa using ha⟩
        | succ j' =>
          obtain ⟨e', he'⟩ := ih (k + 1) j' (by omega)
          exact ⟨e', by rw [← he']; congr 1; omega⟩

/-- The sleeps performed are exactly 2 ^ index for each non-final attempt. -/
lemma retryGo_sleeps (a : Nat → AttemptOutcome) :
    ∀ n k, (retryGo a n k).sleeps
      = (List.range ((retryGo a n k).calls - 1)).map (fun j => 2 ^ (k + j)) := by
  intro n
  induction n with
  | zero => intro k; simp [retryGo_zero]
  | succ m ih =>
    intro k
    cases ha : a k with
    | success s => simp [retryGo_succ_success a m k s ha]
    | semanticFail e => simp [retryGo_succ_semantic a m k e ha]
    | transportFail e =>
      cases m with
      | zero => simp [retryGo_one_transport a k e ha]
      | succ m' =>
        rw [retryGo_succ2_transport a m' k e ha]
        simp only
        rw [ih (k + 1)]
        have hpos : 0 < (retryGo a (m' + 1) (k + 1)).calls :=
          retryGo_calls_pos a (m' + 1) (k + 1) (by omega)
        obtain ⟨c, hc⟩ : ∃ c, (retryGo a (m' + 1) (k + 1)).calls = c + 1 :=
          ⟨_, (Nat.succ_pred_eq_of_pos hpos).symm⟩
        rw [hc]
        simp only [Nat.add_sub_cancel, List.range_succ_eq_map, List.map_cons, List.map_map]
        simp [List.map_inj_left]
        intro x _
        omega

/-- A transport failure on an attempt that happened and was within the
budget is followed by a further attempt. -/
lemma retryGo_transport_retries (a : Nat → AttemptOutcome) :
    ∀ n k j, j < (retryGo a n k).calls → j + 1 < n →
      (∃ e, a (k + j) = .transportFail e) → j + 1 < (retryGo a n k).calls := by
  intro n
  induction n with
  | zero => intro k j h; simp [retryGo_zero] at h
  | succ m ih =>
    intro k j hj hb he
    obtain ⟨e, he⟩ := he
    cases ha : a k with
    | success s =>
      simp [retryGo_succ_success a m k s ha] at hj
      have : j = 0 := by omega
      subst this
      rw [Nat.add_zero, ha] at he
      cases he
    | semanticFail e' =>
      simp [retryGo_succ_semantic a m k e' ha] at hj
      have : j = 0 := by omega
      subst this
      rw [Nat.add_zero, ha] at he
      cases he
    | transportFail e' =>
      cases m with
      | zero => omega
      | succ m' =>
        rw [retryGo_succ2_transport a m' k e' ha] at hj ⊢
        simp only at hj ⊢
        cases j with
        | zero =>
          have := retryGo_calls_pos a (m' + 1) (k + 1) (by omega)
          omega
        | succ j' =>
          have h3 : ∃ e, a ((k + 1) + j') = .transportFail e :=
            ⟨e, by rw [← he]; congr 1; omega⟩
          have := ih (k + 1) j' (by omega) (by omega) h3
          omega

/-- C7: the guide-generation retry loop makes at most max_retries attempts;
every attempt that was retried had failed at the transport level (so a
semantic failure is never retried); the sleeps between attempts are exactly
the exponential backoff 2 ^ attempt index; a transport failure within the
attempt budget is always retried; and the default attempt bound is 3. -/
theorem c7_retry_policy (attempts : Nat → AttemptOutcome) (maxRetries : Nat) :
    (generateGuideRun attempts maxRetries).calls ≤ maxRetries ∧
    (∀ j, j + 1 < (generateGuideRun attempts maxRetries).calls →
      ∃ e, attempts j = .transportFail e) ∧
    (generateGuideRun attempts maxRetries).sleeps
      = (List.range ((generateGuideRun attempts maxRetries).calls - 1)).map (fun j => 2 ^ j) ∧
    (∀ j, j < (generateGuideRun attempts maxRetries).calls → j + 1 < maxRetries →
      (∃ e, attempts j = .transportFail e) →
      j + 1 < (generateGuideRun attempts maxRetries).calls) ∧
    defaultMaxRetries = 3 := by
  refine ⟨retryGo_calls_le attempts maxRetries 0, ?_, ?_, ?_, rfl⟩
  · intro j hj
    simpa using retryGo_nonfinal_transport attempts maxRetries 0 j hj
  · simpa using retryGo_sleeps attempts maxRetries 0
  · intro j h1 h2 h3
    exact retryGo_transport_retries attempts maxRetries 0 j h1 h2 (by simpa using h3)

/-- C7 (witness): the retry policy at a concrete attempt oracle that fails
at the transport level twice and then succeeds, with the default budget. -/
theorem c7_witness :
    (generateGuideRun
        (fun k => if k < 2 then AttemptOutcome.transportFail "timeout"
          else AttemptOutcome.success "guide") 3).calls ≤ 3 ∧
    (∀ j, j + 1 < (generateGuideRun
        (fun k => if k < 2 then AttemptOutcome.transportFail "timeout"
          else AttemptOutcome.success "guide") 3).calls →
      ∃ e, (fun k => if k < 2 then AttemptOutcome.transportFail "timeout"
          else AttemptOutcome.success "guide") j = .transportFail e) ∧
    (generateGuideRun
        (fun k => if k < 2 then AttemptOutcome.transportFail "timeout"
          else AttemptOutcome.success "guide") 3).sleeps
      = (List.range ((generateGuideRun
          (fun k => if k < 2 then AttemptOutcome.transportFail "timeout"
            else AttemptOutcome.success "guide") 3).calls - 1)).map (fun j => 2 ^ j) ∧
    (∀ j, j < (generateGuideRun
        (fun k => if k < 2 then AttemptOutcome.transportFail "timeout"
          else AttemptOutcome.success "guide") 3).calls → j + 1 < 3 →
      (∃ e, (fun k => if k < 2 then AttemptOutcome.transportFail "timeout"
          else AttemptOutcome.success "guide") j = .transportFail e) →
      j + 1 < (generateGuideRun
        (fun k => if k < 2 then AttemptOutcome.transportFail "timeout"
          else AttemptOutcome.success "guide") 3).calls) ∧
    defaultMaxRetries = 3 :=
  c7_retry_policy
    (fun k => if k < 2 then AttemptOutcome.transportFail "timeout"
      else AttemptOutcome.success "guide") 3

/-! ## C8 -/

/-- C8: the availability probe is a total boolean function of the request
outcome — it cannot throw — and it returns false on every raised error; on
a returned response it is true exactly for status 200. -/
theorem c8_probe_never_throws :
    (∀ e : String, ollamaIsAvailable (.error e) = false) ∧
    (∀ s : Nat, ollamaIsAvailable (.ok s) = (s == 200)) :=
  ⟨fun _ => rfl, fun _ => rfl⟩

/-! ## C10 and C3 -/

/-- C10: when the audio path does not exist, Transcriber.transcribe_audio
returns None and writes nothing, whatever the mode, provider outcome, save
outcomes, fallback flag and local outcome would have been. -/
theorem c10_missing_audio_returns_none (useApi : Bool) (apiCall : Except String ApiResult)
    (saveOk fallbackToLocal : Bool) (localResult : Option String) (localSaveOk : Bool) :
    transcriberRun false useApi apiCall saveOk fallbackToLocal localResult localSaveOk
      = (none, []) := rfl

/-- C3 (bug evaluation): when the HuggingFace provider call raises, the
provider catches the exception and returns a placeholder dict marked
failed; the transcriber drops the failed flag, persists the placeholder
text as the transcript file and returns it as the result — a garbage
artifact is written for a failed stage. -/
theorem c3_failed_provider_artifact_persisted :
    (hfTranscribeAudio (.error "Connection error")).failed = true ∧
    transcriberRun true true (.ok (hfTranscribeAudio (.error "Connection error"))) true true
      none true
      = (some "[Transcription failed: Connection error]",
         ["[Transcription failed: Connection error]"]) := by
  exact ⟨rfl, by decide⟩

/-! ## C5 -/

/-- C5 (counterexample): with duration 100s, file size 2000MB, configured
chunk duration 300s, overlap 10s and target chunk size 20MB, the derived
step is -10 ≤ 0, yet the planner does not fail configuration validation —
it silently returns an empty window list. -/
theorem c5_negative_step_counterexample :
    hfSplit 100 2000 300 10 20 = .ok [] ∧ hfStep 100 2000 300 10 20 = -10 := by
  norm_num [hfSplit, hfPlan, hfLoop, hfStep, hfMaxdur, pyInt, min_def, max_def]

/-- C5 (amended): the planner performs no step validation.  For a negative
step (and duration at least the step magnitude) it silently returns an
empty plan with no error; only a step of exactly zero aborts, and then with
a ZeroDivisionError from the chunk-count division rather than a
configuration-validation failure. -/
theorem c5_planner_skips_validation (total fileSizeMB : ℚ) (chunkDur overlap : ℤ)
    (target : ℚ) (htot : 0 < total) :
    (hfStep total fileSizeMB chunkDur overlap target < 0 →
      ((-(hfStep total fileSizeMB chunkDur overlap target) : ℤ) : ℚ) ≤ total →
      hfSplit total fileSizeMB chunkDur overlap target = .ok []) ∧
    (hfStep total fileSizeMB chunkDur overlap target = 0 →
      hfSplit total fileSizeMB chunkDur overlap target = .error "ZeroDivisionError") := by
  constructor
  · intro hs hle
    have hsq : ((hfStep total fileSizeMB chunkDur overlap target : ℤ) : ℚ) < 0 := by
      exact_mod_cast hs
    have hq : total / ((hfStep total fileSizeMB chunkDur overlap target : ℤ) : ℚ) < 0 :=
      div_neg_of_pos_of_neg htot hsq
    have hq1 : total / ((hfStep total fileSizeMB chunkDur overlap target : ℤ) : ℚ)
        ≤ ((-1 : ℤ) : ℚ) := by
      rw [div_le_iff_of_neg hsq]
      push_cast at hle ⊢
      linarith
    have hceil : pyInt (total / ((hfStep total fileSizeMB chunkDur overlap target : ℤ) : ℚ))
        ≤ -1 := by
      rw [pyInt, if_pos hq]
      exact Int.ceil_le.mpr hq1
    have hfuel : (pyInt (total / ((hfStep total fileSizeMB chunkDur overlap target : ℤ) : ℚ))
        + 1).toNat = 0 := by omega
    rw [hfSplit, if_neg (by omega)]
    rw [hfPlan, hfuel]
    rfl
  · intro hs
    rw [hfSplit, if_pos hs]

/-- C5 (witness): the amended claim at the concrete configuration of the
counterexample, whose step is -10. -/
theorem c5_witness :
    (hfStep 100 2000 300 10 20 < 0 →
      ((-(hfStep 100 2000 300 10 20) : ℤ) : ℚ) ≤ 100 →
      hfSplit 100 2000 300 10 20 = .ok []) ∧
    (hfStep 100 2000 300 10 20 = 0 →
      hfSplit 100 2000 300 10 20 = .error "ZeroDivisionError") :=
  c5_planner_skips_validation 100 2000 300 10 20 (by norm_num)

/-! ## C2 -/

/-- C2 (counterexample): the OpenRouter planner on a 10-second file with
its default limits (chunk duration 120s, overlap 10s, target 2MB, file
size 50MB) returns an empty window list for a positive duration: the only
candidate chunk is shorter than the 15-second minimum and is dropped. -/
theorem c2_or_planner_empty :
    orSplit 10 50 120 10 2 = .ok [] ∧ (0 : ℚ) < 10 := by
  norm_num [orSplit, orPlan, orLoop, orStep, orMaxdur, pyInt, min_def, max_def]

/-- Every window laid out by the HuggingFace loop is a member of the plan,
provided its index is within the fuel and its remaining duration positive. -/
lemma hfLoop_mem (total m s : ℚ) (hm : 0 < m) (hs : 0 < s) :
    ∀ (fuel i j : ℕ), i ≤ j → j < i + fuel → 0 < total - (j : ℚ) * s →
      ({ startSeconds := (j : ℚ) * s,
         durationSeconds := min m (total - (j : ℚ) * s) } : AudioChunkSpec)
        ∈ hfLoop total m s fuel i := by
  intro fuel
  induction fuel with
  | zero => intro i j hij hj _; exact absurd hj (by omega)
  | succ f ih =>
    intro i j hij hj hpos
    have hstart : 0 < total - (i : ℚ) * s := by
      have hle : (i : ℚ) * s ≤ (j : ℚ) * s :=
        mul_le_mul_of_nonneg_right (by exact_mod_cast hij) (le_of_lt hs)
      linarith
    simp only [hfLoop]
    rw [if_neg (by push_neg; exact lt_min hm hstart)]
    rcases Nat.eq_or_lt_of_le hij with rfl | hlt
    · exact List.mem_cons_self _ _
    · exact List.mem_cons_of_mem _ (ih (i + 1) j hlt (by omega) hpos)

/-- The head of a HuggingFace planning loop starts at its index times the
step. -/
lemma hfLoop_head_start (total m s : ℚ) :
    ∀ (f j : ℕ) (w : AudioChunkSpec), (hfLoop total m s f j).head? = some w →
      w.startSeconds = (j : ℚ) * s := by
  intro f j w h
  cases f with
  | zero => simp [hfLoop] at h
  | succ f' =>
    simp only [hfLoop] at h
    by_cases hc : min m (total - (j : ℚ) * s) ≤ 0
    · rw [if_pos hc] at h; simp at h
    · rw [if_neg hc] at h
      simp only [List.head?_cons, Option.some.injEq] at h
      rw [← h]

/-- The HuggingFace plan is ordered: window starts strictly increase. -/
lemma hfLoop_chain (total m s : ℚ) (hs : 0 < s) :
    ∀ (fuel i : ℕ), List.Chain' (fun a b => a.startSeconds < b.startSeconds)
      (hfLoop total m s fuel i) := by
  intro fuel
  induction fuel with
  | zero => intro i; simp [hfLoop]
  | succ f ih =>
    intro i
    simp only [hfLoop]
    by_cases hc : min m (total - (i : ℚ) * s) ≤ 0
    · rw [if_pos hc]; exact List.chain'_nil
    · rw [if_neg hc]
      refine List.chain'_cons'.mpr ⟨?_, ih (i + 1)⟩
      intro y hy
      have hy' : y.startSeconds = ((i + 1 : ℕ) : ℚ) * s :=
        hfLoop_head_start total m s f (i + 1) y hy
      rw [hy']
      push_cast
      have := mul_lt_mul_of_pos_right (show (i : ℚ) < (i : ℚ) + 1 by linarith) hs
      linarith

/-- With positive chunk duration and positive total duration the
HuggingFace planning loop emits at least one window. -/
lemma hfLoop_ne_nil (total m s : ℚ) (hm : 0 < m) (htot : 0 < total) (f : ℕ) :
    hfLoop total m s (f + 1) 0 ≠ [] := by
  simp only [hfLoop]
  rw [if_neg ?_]
  · exact List.cons_ne_nil _ _
  · push_neg
    refine lt_min hm ?_
    push_cast
    linarith

/-- With enough fuel, the windows of the HuggingFace planning loop cover
the whole duration: every time point lies in the window whose index is the
floor of its quotient by the step. -/
lemma hfLoop_covers (total m s : ℚ) (hm : 0 < m) (hs : 0 < s) (hsm : s ≤ m)
    (fuel : ℕ) (hfuel : (⌊total / s⌋).toNat < fuel) :
    coversInterval (hfLoop total m s fuel 0) total := by
  intro t ht0 httop
  have hsne : s ≠ 0 := ne_of_gt hs
  have hK0 : 0 ≤ ⌊t / s⌋ := Int.floor_nonneg.mpr (div_nonneg ht0 (le_of_lt hs))
  have hjq : (((⌊t / s⌋).toNat : ℕ) : ℚ) = ((⌊t / s⌋ : ℤ) : ℚ) := by
    exact_mod_cast Int.toNat_of_nonneg hK0
  have h1 : ((⌊t / s⌋ : ℤ) : ℚ) * s ≤ t := by
    calc ((⌊t / s⌋ : ℤ) : ℚ) * s ≤ (t / s) * s :=
          mul_le_mul_of_nonneg_right (Int.floor_le (t / s)) (le_of_lt hs)
      _ = t := div_mul_cancel₀ t hsne
  have h2 : t < (((⌊t / s⌋ : ℤ) : ℚ) + 1) * s := by
    have hlt := mul_lt_mul_of_pos_right (Int.lt_floor_add_one (t / s)) hs
    rwa [div_mul_cancel₀ t hsne] at hlt
  have hpos : 0 < total - (((⌊t / s⌋).toNat : ℕ) : ℚ) * s := by
    rw [hjq]; linarith
  have hjlt : (⌊t / s⌋).toNat < 0 + fuel := by
    have hmono : ⌊t / s⌋ ≤ ⌊total / s⌋ :=
      Int.floor_le_floor ((div_le_div_iff_of_pos_right hs).mpr (le_of_lt httop))
    omega
  refine ⟨_, hfLoop_mem total m s hm hs fuel 0 (⌊t / s⌋).toNat (by omega) hjlt hpos, ?_, ?_⟩
  · show (((⌊t / s⌋).toNat : ℕ) : ℚ) * s ≤ t
    rw [hjq]; exact h1
  · show t < (((⌊t / s⌋).toNat : ℕ) : ℚ) * s
      + min m (total - (((⌊t / s⌋).toNat : ℕ) : ℚ) * s)
    rw [hjq]
    have ha : t - ((⌊t / s⌋ : ℤ) : ℚ) * s < m := by
      have : t < ((⌊t / s⌋ : ℤ) : ℚ) * s + s := by linarith [h2]
      linarith
    have hb : t - ((⌊t / s⌋ : ℤ) : ℚ) * s < total - ((⌊t / s⌋ : ℤ) : ℚ) * s := by linarith
    have := lt_min ha hb
    linarith

/-- C2 (amended): for every positive duration and valid limits (nonnegative
overlap strictly below the derived chunk duration), the HuggingFace planner
succeeds and its output is a nonempty, strictly ordered window sequence
whose union covers the interval from 0 to the total duration with no gaps.
The OpenRouter planner does not satisfy this (see the counterexample). -/
theorem c2_hf_planner_covers (total fileSizeMB : ℚ) (chunkDur overlap : ℤ) (target : ℚ)
    (htot : 0 < total) (hov : 0 ≤ overlap)
    (hlt : overlap < hfMaxdur total fileSizeMB chunkDur target) :
    hfSplit total fileSizeMB chunkDur overlap target
      = .ok (hfPlan total fileSizeMB chunkDur overlap target) ∧
    hfPlan total fileSizeMB chunkDur overlap target ≠ [] ∧
    List.Chain' (fun a b => a.startSeconds < b.startSeconds)
      (hfPlan total fileSizeMB chunkDur overlap target) ∧
    coversInterval (hfPlan total fileSizeMB chunkDur overlap target) total := by
  have hsz : 0 < hfStep total fileSizeMB chunkDur overlap target := by
    rw [hfStep]; omega
  have hmz : 0 < hfMaxdur total fileSizeMB chunkDur target := by omega
  have hs : (0 : ℚ) < ((hfStep total fileSizeMB chunkDur overlap target : ℤ) : ℚ) := by
    exact_mod_cast hsz
  have hm : (0 : ℚ) < ((hfMaxdur total fileSizeMB chunkDur target : ℤ) : ℚ) := by
    exact_mod_cast hmz
  have hsmz : hfStep total fileSizeMB chunkDur overlap target
      ≤ hfMaxdur total fileSizeMB chunkDur target := by
    rw [hfStep]; omega
  have hsm : ((hfStep total fileSizeMB chunkDur overlap target : ℤ) : ℚ)
      ≤ ((hfMaxdur total fileSizeMB chunkDur target : ℤ) : ℚ) := by exact_mod_cast hsmz
  have hq0 : 0 ≤ total / ((hfStep total fileSizeMB chunkDur overlap target : ℤ) : ℚ) :=
    le_of_lt (div_pos htot hs)
  have hpy : pyInt (total / ((hfStep total fileSizeMB chunkDur overlap target : ℤ) : ℚ))
      = ⌊total / ((hfStep total fileSizeMB chunkDur overlap target : ℤ) : ℚ)⌋ := by
    rw [pyInt, if_neg (not_lt.mpr hq0)]
  have hfl0 : 0 ≤ ⌊total / ((hfStep total fileSizeMB chunkDur overlap target : ℤ) : ℚ)⌋ :=
    Int.floor_nonneg.mpr hq0
  have hfuel : ∃ f : ℕ,
      (pyInt (total / ((hfStep total fileSizeMB chunkDur overlap target : ℤ) : ℚ))
        + 1).toNat = f + 1 := by
    rw [hpy]
    exact ⟨(⌊total / ((hfStep total fileSizeMB chunkDur overlap target : ℤ) : ℚ)⌋).toNat,
      by omega⟩
  obtain ⟨f, hf⟩ := hfuel
  refine ⟨by rw [hfSplit, if_neg (by omega)], ?_, ?_, ?_⟩
  · rw [hfPlan, hf]
    exact hfLoop_ne_nil total _ _ hm htot f
  · rw [hfPlan]
    exact hfLoop_chain total _ _ hs _ 0
  · rw [hfPlan, hf]
    apply hfLoop_covers total _ _ hm hs hsm (f + 1)
    rw [hpy] at hf
    omega

/-- C2 (witness): the amended claim at a concrete 500-second file with
derived chunk duration 60s and step 50s. -/
theorem c2_witness :
    hfSplit 500 100 300 10 20 = .ok (hfPlan 500 100 300 10 20) ∧
    hfPlan 500 100 300 10 20 ≠ [] ∧
    List.Chain' (fun a b => a.startSeconds < b.startSeconds) (hfPlan 500 100 300 10 20) ∧
    coversInterval (hfPlan 500 100 300 10 20) 500 :=
  c2_hf_planner_covers 500 100 300 10 20 (by norm_num) (by norm_num)
    (by norm_num [hfMaxdur, pyInt, min_def])

end VGP
